import Mathlib

/-!
Verification of the zhipu-copilot-gateway against its specification.

Strings computed on by the gateway are embedded as `List Char` (`JStr`),
so that the JavaScript string operations used by the source
(`split(':')[0]`, `includes`, `startsWith`, `slice`) become structurally
recursive Lean functions that the kernel can evaluate.
-/

/-- JavaScript strings, embedded as lists of characters. -/
abbrev JStr := List Char

/-- A JavaScript `string | null | undefined` value.  `nullish` stands for
both `null` and `undefined` (the gateway treats them identically via the
`!model` truthiness test). -/
inductive NullableStr where
  | nullish
  | str (s : JStr)
deriving DecidableEq

/-- The value of `model.split(':')[0]`: the segment of the string before the first `':'`
(the whole string when there is no `':'`). -/
def splitColonHead : JStr → JStr
  | [] => []
  | c :: rest => if c = ':' then [] else c :: splitColonHead rest

/-- The test `model.includes(':')`. -/
def containsColon (s : JStr) : Bool := s.contains ':'

/-- Embeds `src/zhipu.ts` `normalizeModelName`, on plain strings:
`if (!model) return model; return model.includes(':') ? model.split(':')[0] : model;`
(`!model` is true for the empty string). -/
def normalizeModelNameStr (s : JStr) : JStr :=
  if s = [] then s
  else if containsColon s then splitColonHead s
  else s

/-- Embeds `src/zhipu.ts` `normalizeModelName`, on nullable inputs: `!model` is also
true for `null`/`undefined`, which are returned unchanged. -/
def normalizeModelName : NullableStr → NullableStr
  | .nullish => .nullish
  | .str s => .str (normalizeModelNameStr s)

/-- JavaScript `pat.startsWith` check: `jsStartsWith pat s` is `s.startsWith(pat)`. -/
def jsStartsWith : JStr → JStr → Bool
  | [], _ => true
  | _ :: _, [] => false
  | p :: ps, c :: cs => p = c && jsStartsWith ps cs

/-- The model-family literal `'glm'` tested by `normalizedModel.startsWith('glm')`. -/
def glmFam : JStr := "glm".toList

/-- Model resolution from `src/routes/chat.ts` lines 38-39 (the same logic
appears in `src/server.ts` lines 288-291):
`const normalizedModel = normalizeModelName(requestedModel);`
`const targetModel = normalizedModel.startsWith('glm') ? normalizedModel : config.DEFAULT_ZHIPU_MODEL;` -/
def resolveTarget (defaultModel requested : JStr) : JStr :=
  let normalized := normalizeModelNameStr requested
  if jsStartsWith glmFam normalized then normalized else defaultModel

/-- Embeds the `src/ollama.ts` `chunkText` loop body: slices of length `size` taken from
successive offsets.  The loop `for (let i = 0; i < s.length; i += size)`
terminates because the claim restricts to positive sizes. -/
def chunkTextGo (size : Nat) (hsize : 0 < size) (s : JStr) : List JStr :=
  if _hs : s = [] then []
  else s.take size :: chunkTextGo size hsize (s.drop size)
termination_by s.length
decreasing_by
  simp only [List.length_drop]
  have : 0 < s.length := List.length_pos.mpr _hs
  omega

/-- Embeds `src/ollama.ts` `chunkText`: collect the slices; `out.length ? out : ['']`
returns a single empty chunk for the empty input. -/
def chunkText (s : JStr) (size : Nat) (hsize : 0 < size) : List JStr :=
  let out := chunkTextGo size hsize s
  if out.isEmpty then [[]] else out

-- ---------------------------------------------------------------------------
-- Helper lemmas for the model-name and chunker layer
-- ---------------------------------------------------------------------------

lemma splitColonHead_eq_takeWhile (s : JStr) :
    splitColonHead s = s.takeWhile (fun c => c != ':') := by
  induction s with
  | nil => rfl
  | cons c rest ih =>
    by_cases h : c = ':'
    · subst h
      simp [splitColonHead, List.takeWhile_cons]
    · simp [splitColonHead, List.takeWhile_cons, h, ih, bne_iff_ne]

lemma splitColonHead_no_colon (s : JStr) :
    containsColon (splitColonHead s) = false := by
  induction s with
  | nil => rfl
  | cons c rest ih =>
    simp only [containsColon] at ih ⊢
    by_cases h : c = ':'
    · simp [splitColonHead, h]
    · simp only [splitColonHead, if_neg h, List.contains_cons]
      refine Bool.or_eq_false_iff.mpr ⟨?_, ih⟩
      exact beq_eq_false_iff_ne.mpr fun hh => h hh.symm

lemma splitColonHead_of_no_colon (s : JStr) (h : containsColon s = false) :
    splitColonHead s = s := by
  induction s with
  | nil => rfl
  | cons c rest ih =>
    simp only [containsColon, List.contains_cons, Bool.or_eq_false_iff] at h
    have hc : c ≠ ':' := by
      intro hc
      subst hc
      simp at h
    simp [splitColonHead, hc, ih h.2]

lemma normalizeModelNameStr_no_colon (s : JStr) :
    containsColon (normalizeModelNameStr s) = false ∨ normalizeModelNameStr s = s := by
  unfold normalizeModelNameStr
  by_cases h0 : s = []
  · simp [h0, containsColon]
  · by_cases hc : containsColon s
    · simp [h0, hc, splitColonHead_no_colon]
    · simp [h0, hc]

lemma normalizeModelNameStr_of_no_colon (t : JStr) (h : containsColon t = false) :
    normalizeModelNameStr t = t := by
  unfold normalizeModelNameStr
  by_cases h0 : t = []
  · simp [h0]
  · simp [h0, h]

lemma normalizeModelNameStr_idem (s : JStr) :
    normalizeModelNameStr (normalizeModelNameStr s) = normalizeModelNameStr s := by
  rcases normalizeModelNameStr_no_colon s with h | h
  · exact normalizeModelNameStr_of_no_colon _ h
  · rw [h]
    exact h

lemma chunkTextGo_flatten (size : Nat) (hsize : 0 < size) (s : JStr) :
    (chunkTextGo size hsize s).flatten = s := by
  generalize hn : s.length = n
  induction n using Nat.strong_induction_on generalizing s with
  | _ n ih =>
    by_cases hs : s = []
    · subst hs
      rw [chunkTextGo]
      simp
    · rw [chunkTextGo]
      simp only [hs, dite_false, List.flatten_cons]
      have hlen : 0 < s.length := List.length_pos.mpr hs
      have hdrop : (s.drop size).length < n := by
        rw [List.length_drop]
        omega
      rw [ih _ hdrop (s.drop size) rfl]
      exact List.take_append_drop size s

-- ---------------------------------------------------------------------------
-- C7 / C8 / C9
-- ---------------------------------------------------------------------------

/-- C8: `normalizeModelName` removes everything from the first `':'` onward
(`'glm-4.6:latest'` becomes `'glm-4.6'`; equivalently the result is the
longest prefix free of `':'`), a model without `':'` is returned unchanged,
and a `null`/`undefined` input passes through unchanged rather than being
replaced with the empty string. -/
theorem claim_c8_normalizeModelName :
    normalizeModelName (.str "glm-4.6:latest".toList) = .str "glm-4.6".toList
    ∧ (∀ s : JStr, normalizeModelName (.str s) = .str (s.takeWhile (fun c => c != ':')))
    ∧ (∀ s : JStr, containsColon s = false → normalizeModelName (.str s) = .str s)
    ∧ normalizeModelName .nullish = .nullish := by
  refine ⟨by decide, ?_, ?_, rfl⟩
  · intro s
    simp only [normalizeModelName, NullableStr.str.injEq]
    rw [← splitColonHead_eq_takeWhile]
    unfold normalizeModelNameStr
    by_cases h0 : s = []
    · simp [h0, splitColonHead]
    · by_cases hc : containsColon s
      · simp [h0, hc]
      · simp only [Bool.not_eq_true] at hc
        simp [h0, hc, splitColonHead_of_no_colon s hc]
  · intro s h
    simp only [normalizeModelName, NullableStr.str.injEq]
    unfold normalizeModelNameStr
    by_cases h0 : s = []
    · simp [h0]
    · simp [h0, h]

/-- Witness for C8: a concrete model without `':'` is returned unchanged. -/
theorem claim_c8_normalizeModelName_witness :
    containsColon "glm-4".toList = false
    ∧ normalizeModelName (.str "glm-4".toList) = .str "glm-4".toList :=
  ⟨by decide, claim_c8_normalizeModelName.2.2.1 "glm-4".toList (by decide)⟩

/-- C7: for every requested model string, `resolveTarget` returns either a
value whose normalized form starts with the `'glm'` family prefix, or the
configured default upstream model. -/
theorem claim_c7_resolveTarget (defaultModel requested : JStr) :
    jsStartsWith glmFam (normalizeModelNameStr (resolveTarget defaultModel requested)) = true
    ∨ resolveTarget defaultModel requested = defaultModel := by
  unfold resolveTarget
  by_cases h : jsStartsWith glmFam (normalizeModelNameStr requested) = true
  · left
    simp only [h, if_true]
    rw [normalizeModelNameStr_idem]
    exact h
  · right
    simp only [Bool.not_eq_true] at h
    simp [h]

/-- C9: for every string and positive chunk size, the chunks returned by
`chunkText` concatenate back to the original string, and chunking the empty
string yields exactly one empty chunk, never an empty list. -/
theorem claim_c9_chunkText (s : JStr) (size : Nat) (hsize : 0 < size) :
    (chunkText s size hsize).flatten = s
    ∧ chunkText [] size hsize = [[]] := by
  constructor
  · unfold chunkText
    by_cases hs : s = []
    · subst hs
      rw [chunkTextGo]
      simp
    · have : chunkTextGo size hsize s ≠ [] := by
        rw [chunkTextGo]
        simp [hs]
      simp only [List.isEmpty_iff, this, if_false]
      exact chunkTextGo_flatten size hsize s
  · unfold chunkText
    rw [chunkTextGo]
    simp

/-- Witness for C9: chunking `'hello'` with size 2 reassembles to `'hello'`. -/
theorem claim_c9_chunkText_witness :
    (0 < 2)
    ∧ ((chunkText "hello".toList 2 (by decide)).flatten = "hello".toList
        ∧ chunkText [] 2 (by decide) = [[]]) :=
  ⟨by decide, claim_c9_chunkText "hello".toList 2 (by decide)⟩

-- ---------------------------------------------------------------------------
-- The streaming transcoder of src/routes/chat.ts (lines 137-239)
-- ---------------------------------------------------------------------------

/-- One entry of an upstream `delta.tool_calls` array: the `function` object
with its optional `name` and `arguments` fields (`none` models an absent
field). -/
structure ToolCallFn where
  name : Option JStr
  arguments : Option JStr
deriving DecidableEq

/-- One upstream streaming tool-call entry (`delta.tool_calls[i]`). -/
structure ToolCallDelta where
  id : Option JStr
  function : Option ToolCallFn
deriving DecidableEq

/-- An upstream `choice.delta`: optional `content` and `tool_calls`. -/
structure UpDelta where
  content : Option JStr
  tool_calls : Option (List ToolCallDelta)
deriving DecidableEq

/-- An upstream streaming `choice`: `delta` (absent modelled by `none`, the
code substitutes `{}`) and `finish_reason` (absent or `null` modelled by
`none`). -/
structure UpChoiceDelta where
  delta : Option UpDelta
  finish_reason : Option JStr
deriving DecidableEq

/-- One parsed upstream SSE frame (`zhipuChunk`). -/
structure ZhipuChunk where
  id : Option JStr
  created : Option Nat
  choices : List UpChoiceDelta
  usage : Option JStr
deriving DecidableEq

/-- The body of one client-visible SSE frame: exactly one of role
announcement, content delta, tool-call header, tool-call argument fragment,
or finish (with optional forwarded usage). -/
inductive FrameBody where
  | roleAnnounce
  | contentDelta (content : JStr)
  | toolHeader (index : Nat) (id : Option JStr) (name : JStr)
  | toolArgs (index : Nat) (arguments : JStr)
  | finish (reason : JStr) (usage : Option JStr)
deriving DecidableEq

/-- One client-visible SSE frame, carrying the pinned `id`/`created` and the
echoed `model` of `baseChunk` (chat.ts lines 162-167). -/
structure Frame where
  id : JStr
  created : Nat
  model : JStr
  body : FrameBody
deriving DecidableEq

/-- One write to the client socket: either an SSE data frame (`writeSse`) or
the terminal `data: [DONE]\n\n` sentinel (chat.ts line 230). -/
inductive Write where
  | frame (f : Frame)
  | doneSentinel
deriving DecidableEq

/-- The transcoder's mutable state (chat.ts lines 139-141). -/
structure StreamState where
  requestId : JStr
  created : Nat
  roleSent : Bool
deriving DecidableEq

/-- JavaScript truthiness of an optional string field: `undefined`/`null`
and `''` are falsy. -/
def jsTruthy : Option JStr → Bool
  | some s => !s.isEmpty
  | none => false

/-- The tool-call loop of chat.ts lines 196-213: for each entry at its index,
entries whose `function` or `function.name` is missing or falsy are skipped
(`continue`); the others emit a header frame (id, name, empty arguments)
followed by one argument frame carrying `toolCall.function.arguments || ''`. -/
def toolCallWrites (mk : FrameBody → Write) (tcs : List ToolCallDelta) : List Write :=
  tcs.enum.flatMap fun p =>
    match p.2.function with
    | none => []
    | some fn =>
      match fn.name with
      | none => []
      | some n =>
        if n.isEmpty then []
        else
          [mk (.toolHeader p.1 p.2.id n), mk (.toolArgs p.1 (fn.arguments.getD []))]

/-- Embeds `if (zhipuChunk.id && !roleSent) requestId = zhipuChunk.id;`
(chat.ts line 159; `''` is falsy). -/
def pinId (st : StreamState) (cid : Option JStr) : JStr :=
  match cid with
  | some s => if !s.isEmpty && !st.roleSent then s else st.requestId
  | none => st.requestId

/-- Embeds `if (zhipuChunk.created && !roleSent) created = zhipuChunk.created;`
(chat.ts line 160; `0` is falsy). -/
def pinCreated (st : StreamState) (cc : Option Nat) : Nat :=
  match cc with
  | some n => if (n != 0) && !st.roleSent then n else st.created
  | none => st.created

/-- The role-announcement frame, emitted only when `roleSent` is still false
(chat.ts lines 169-177). -/
def roleWrites (mk : FrameBody → Write) (st : StreamState) : List Write :=
  if st.roleSent then [] else [mk .roleAnnounce]

/-- Embeds `if (delta.content) ...` (chat.ts lines 185-192; `''` is falsy). -/
def contentWrites (mk : FrameBody → Write) (oc : Option JStr) : List Write :=
  match oc with
  | some s => if s.isEmpty then [] else [mk (.contentDelta s)]
  | none => []

/-- Embeds `if (delta.tool_calls) ...` (chat.ts lines 194-214; an array,
including the empty one, is truthy). -/
def deltaToolWrites (mk : FrameBody → Write) (otc : Option (List ToolCallDelta)) :
    List Write :=
  match otc with
  | some tcs => toolCallWrites mk tcs
  | none => []

/-- Embeds `if (finishReason) ...` (chat.ts lines 216-222; `null` and `''` are
falsy; `usage` forwarded when present). -/
def finishWrites (mk : FrameBody → Write) (ofr : Option JStr) (usage : Option JStr) :
    List Write :=
  match ofr with
  | some r => if r.isEmpty then [] else [mk (.finish r usage)]
  | none => []

/-- Processing of one successfully parsed upstream frame
(chat.ts lines 157-222): pin id/created on first sight, emit the role
announcement once, then content, tool-call, and finish frames for the first
choice's delta. -/
def processChunk (requestedModel : JStr) (st : StreamState) (c : ZhipuChunk) :
    StreamState × List Write :=
  let requestId := pinId st c.id
  let created := pinCreated st c.created
  let mk := fun b => Write.frame ⟨requestId, created, requestedModel, b⟩
  let st' : StreamState := ⟨requestId, created, true⟩
  match c.choices.head? with
  | none => (st', roleWrites mk st)
  | some choice =>
    let delta := choice.delta.getD ⟨none, none⟩
    (st', roleWrites mk st ++ contentWrites mk delta.content
      ++ deltaToolWrites mk delta.tool_calls
      ++ finishWrites mk choice.finish_reason c.usage)

/-- One complete upstream SSE line, after the line-reassembly buffer has cut
the byte stream into lines (chat.ts lines 146-148), classified the way the
loop body of lines 150-155 classifies it: not starting with `data:`
(skipped), the upstream's own `[DONE]` sentinel (skipped, never forwarded),
a payload that fails `JSON.parse` (logged and dropped), or a parsed frame. -/
inductive UpLine where
  | notData (raw : JStr)
  | doneLine
  | badJson (raw : JStr)
  | chunk (c : ZhipuChunk)
deriving DecidableEq

/-- Processing of one upstream line (chat.ts lines 150-225). -/
def processLine (requestedModel : JStr) (st : StreamState) : UpLine → StreamState × List Write
  | .notData _ => (st, [])
  | .doneLine => (st, [])
  | .badJson _ => (st, [])
  | .chunk c => processChunk requestedModel st c

/-- Processing of a sequence of upstream lines, threading the state. -/
def processLines (requestedModel : JStr) (st : StreamState) :
    List UpLine → StreamState × List Write
  | [] => (st, [])
  | l :: ls =>
    let r := processLine requestedModel st l
    let r' := processLines requestedModel r.1 ls
    (r'.1, r.2 ++ r'.2)

/-- How the upstream stream terminates: a normal `end` event or an `error`
event.  (`end` writes the gateway's own `data: [DONE]\n\n` and closes,
chat.ts lines 229-232; `error` closes the still-writable response without
further frames, lines 234-239.) -/
inductive Terminal where
  | endEvent
  | errorEvent
deriving DecidableEq

/-- The initial transcoder state: locally generated request id and creation
time, role not yet sent (chat.ts lines 139-141). -/
def initState (requestId0 : JStr) (created0 : Nat) : StreamState :=
  ⟨requestId0, created0, false⟩

/-- The full sequence of writes of one streamed exchange: the writes produced
by the upstream lines, then the terminal behaviour. -/
def runStream (requestedModel requestId0 : JStr) (created0 : Nat)
    (lines : List UpLine) (t : Terminal) : List Write :=
  let ws := (processLines requestedModel (initState requestId0 created0) lines).2
  match t with
  | .endEvent => ws ++ [Write.doneSentinel]
  | .errorEvent => ws

/-- The emitted byte sequence ends with exactly one `data: [DONE]\n\n`
sentinel: the sentinel is the last write and occurs exactly once. -/
def endsWithSingleDone (ws : List Write) : Prop :=
  ws.getLast? = some Write.doneSentinel ∧ ws.count Write.doneSentinel = 1

-- ---------------------------------------------------------------------------
-- Shape lemmas: every write produced by chunk processing is a data frame
-- ---------------------------------------------------------------------------

lemma toolCallWrites_shape (mk : FrameBody → Write) (tcs : List ToolCallDelta) :
    ∀ w ∈ toolCallWrites mk tcs, ∃ b, w = mk b := by
  intro w hw
  simp only [toolCallWrites, List.mem_flatMap] at hw
  obtain ⟨⟨i, tid, tfn⟩, -, hp⟩ := hw
  cases tfn with
  | none => simp at hp
  | some fn =>
    cases hfn : fn.name with
    | none => simp [hfn] at hp
    | some n =>
      by_cases hn : n.isEmpty
      · simp [hfn, hn] at hp
      · simp [hfn, hn] at hp
        rcases hp with h | h
        · exact ⟨_, h⟩
        · exact ⟨_, h⟩

lemma roleWrites_shape (mk : FrameBody → Write) (st : StreamState) :
    ∀ w ∈ roleWrites mk st, ∃ b, w = mk b := by
  intro w hw
  unfold roleWrites at hw
  by_cases h : st.roleSent
  · simp [h] at hw
  · simp [h] at hw
    exact ⟨_, hw⟩

lemma contentWrites_shape (mk : FrameBody → Write) (oc : Option JStr) :
    ∀ w ∈ contentWrites mk oc, ∃ b, w = mk b := by
  intro w hw
  unfold contentWrites at hw
  cases oc with
  | none => simp at hw
  | some s =>
    by_cases h : s.isEmpty
    · simp [h] at hw
    · simp [h] at hw
      exact ⟨_, hw⟩

lemma deltaToolWrites_shape (mk : FrameBody → Write) (otc : Option (List ToolCallDelta)) :
    ∀ w ∈ deltaToolWrites mk otc, ∃ b, w = mk b := by
  intro w hw
  unfold deltaToolWrites at hw
  cases otc with
  | none => simp at hw
  | some tcs => exact toolCallWrites_shape mk tcs w hw

lemma finishWrites_shape (mk : FrameBody → Write) (ofr : Option JStr) (usage : Option JStr) :
    ∀ w ∈ finishWrites mk ofr usage, ∃ b, w = mk b := by
  intro w hw
  unfold finishWrites at hw
  cases ofr with
  | none => simp at hw
  | some r =>
    by_cases h : r.isEmpty
    · simp [h] at hw
    · simp [h] at hw
      exact ⟨_, hw⟩

/-- Every write of `processChunk` is a data frame whose `id`, `created` and
`model` fields are the pinned values and the requested model. -/
lemma processChunk_shape (m : JStr) (st : StreamState) (c : ZhipuChunk) :
    ∀ w ∈ (processChunk m st c).2,
      ∃ b, w = Write.frame ⟨pinId st c.id, pinCreated st c.created, m, b⟩ := by
  intro w hw
  unfold processChunk at hw
  cases hh : c.choices.head? with
  | none =>
    simp only [hh] at hw
    exact roleWrites_shape _ st w hw
  | some choice =>
    simp only [hh, List.mem_append] at hw
    rcases hw with ((hw | hw) | hw) | hw
    · exact roleWrites_shape _ st w hw
    · exact contentWrites_shape _ _ w hw
    · exact deltaToolWrites_shape _ _ w hw
    · exact finishWrites_shape _ _ _ w hw

lemma processChunk_no_done (m : JStr) (st : StreamState) (c : ZhipuChunk) :
    Write.doneSentinel ∉ (processChunk m st c).2 := by
  intro hmem
  obtain ⟨b, hb⟩ := processChunk_shape m st c _ hmem
  exact Write.noConfusion hb

lemma processLine_no_done (m : JStr) (st : StreamState) (l : UpLine) :
    Write.doneSentinel ∉ (processLine m st l).2 := by
  cases l with
  | notData raw => simp [processLine]
  | doneLine => simp [processLine]
  | badJson raw => simp [processLine]
  | chunk c => exact processChunk_no_done m st c

lemma processLines_no_done (m : JStr) (st : StreamState) (lines : List UpLine) :
    Write.doneSentinel ∉ (processLines m st lines).2 := by
  induction lines generalizing st with
  | nil => simp [processLines]
  | cons l ls ih =>
    simp only [processLines, List.mem_append, not_or]
    exact ⟨processLine_no_done m st l, ih _⟩

-- ---------------------------------------------------------------------------
-- C1: the terminal [DONE] sentinel
-- ---------------------------------------------------------------------------

/-- Counterexample to C1 as stated: when the upstream stream errors (after
forwarding its own `[DONE]` line, which is correctly dropped), the gateway
ends the response without ever writing the sentinel (chat.ts lines 234-239),
so the emitted byte sequence does not end with `data: [DONE]\n\n`. -/
theorem claim_c1_counterexample :
    ¬ endsWithSingleDone
        (runStream "m".toList "req".toList 0 [UpLine.doneLine] Terminal.errorEvent) := by
  unfold endsWithSingleDone
  decide

/-- C1 amended: every streamed exchange that ends with the upstream `end`
event emits exactly one trailing `data: [DONE]\n\n`, regardless of what the
upstream sent before (its own `[DONE]` lines are dropped, malformed lines are
dropped); but an exchange terminated by an upstream `error` event emits no
sentinel at all. -/
theorem claim_c1_amended (m r0 : JStr) (c0 : Nat) (lines : List UpLine) :
    endsWithSingleDone (runStream m r0 c0 lines .endEvent)
    ∧ (runStream m r0 c0 lines .errorEvent).count Write.doneSentinel = 0 := by
  have hno := processLines_no_done m (initState r0 c0) lines
  constructor
  · constructor
    · simp [runStream, List.getLast?_concat]
    · simp only [runStream, List.count_append]
      rw [List.count_eq_zero.mpr hno]
      simp
  · simp only [runStream]
    exact List.count_eq_zero.mpr hno

-- ---------------------------------------------------------------------------
-- C2: tool-call header frames precede argument-fragment frames
-- ---------------------------------------------------------------------------

/-- Does this write carry an argument-fragment frame for tool-call index `i`? -/
def writeIsArgs (i : Nat) : Write → Bool
  | .frame f =>
    match f.body with
    | .toolArgs j _ => j == i
    | _ => false
  | .doneSentinel => false

/-- Does this write carry a tool-call header frame for index `i`? -/
def writeIsHeader (i : Nat) : Write → Bool
  | .frame f =>
    match f.body with
    | .toolHeader j _ _ => j == i
    | _ => false
  | .doneSentinel => false

/-- Every argument-fragment frame for index `i` is preceded (strictly
earlier in the write sequence) by a header frame for index `i`. -/
def argsPreceded (ws : List Write) : Prop :=
  ∀ (p i : Nat), (ws[p]?.any (writeIsArgs i)) = true →
    ∃ q, q < p ∧ (ws[q]?.any (writeIsHeader i)) = true

lemma argsPreceded_nil : argsPreceded [] := by
  intro p i h
  simp at h

lemma argsPreceded_append {l1 l2 : List Write}
    (h1 : argsPreceded l1) (h2 : argsPreceded l2) : argsPreceded (l1 ++ l2) := by
  intro p i h
  by_cases hp : p < l1.length
  · rw [List.getElem?_append_left hp] at h
    obtain ⟨q, hq, hh⟩ := h1 p i h
    exact ⟨q, hq, by rw [List.getElem?_append_left (lt_trans hq hp)]; exact hh⟩
  · push_neg at hp
    rw [List.getElem?_append_right hp] at h
    obtain ⟨q, hq, hh⟩ := h2 (p - l1.length) i h
    refine ⟨l1.length + q, by omega, ?_⟩
    rw [List.getElem?_append_right (by omega), Nat.add_sub_cancel_left]
    exact hh

lemma argsPreceded_single (w : Write) (h : ∀ i, writeIsArgs i w = false) :
    argsPreceded [w] := by
  intro p i hp
  match p with
  | 0 => simp [h i] at hp
  | q + 1 => simp at hp

lemma argsPreceded_pair (f g : Frame) (i0 : Nat) (oid : Option JStr) (n a : JStr)
    (hf : f.body = .toolHeader i0 oid n) (hg : g.body = .toolArgs i0 a) :
    argsPreceded [Write.frame f, Write.frame g] := by
  intro p i hp
  match p with
  | 0 =>
    rw [List.getElem?_cons_zero] at hp
    simp only [Option.any_some, writeIsArgs, hf] at hp
    exact Bool.noConfusion hp
  | 1 =>
    refine ⟨0, by omega, ?_⟩
    rw [List.getElem?_cons_succ, List.getElem?_cons_zero] at hp
    simp only [Option.any_some, writeIsArgs, hg] at hp
    rw [List.getElem?_cons_zero]
    simp only [Option.any_some, writeIsHeader, hf]
    exact hp
  | q + 2 =>
    rw [List.getElem?_cons_succ, List.getElem?_cons_succ] at hp
    simp at hp

lemma argsPreceded_toolCallWrites (rid : JStr) (cr : Nat) (m : JStr)
    (tcs : List ToolCallDelta) :
    argsPreceded (toolCallWrites (fun b => Write.frame ⟨rid, cr, m, b⟩) tcs) := by
  unfold toolCallWrites
  generalize tcs.enum = l
  induction l with
  | nil => exact argsPreceded_nil
  | cons x xs ih =>
    rw [List.flatMap_cons]
    refine argsPreceded_append ?_ ih
    rcases x with ⟨i, tid, tfn⟩
    cases tfn with
    | none => exact argsPreceded_nil
    | some fn =>
      rcases fn with ⟨fname, fargs⟩
      cases fname with
      | none => exact argsPreceded_nil
      | some n =>
        by_cases hn : n.isEmpty
        · simp only [hn, if_true]
          exact argsPreceded_nil
        · simp only [hn, if_false]
          exact argsPreceded_pair _ _ i tid n (fargs.getD []) rfl rfl

lemma argsPreceded_roleWrites (rid : JStr) (cr : Nat) (m : JStr) (st : StreamState) :
    argsPreceded (roleWrites (fun b => Write.frame ⟨rid, cr, m, b⟩) st) := by
  unfold roleWrites
  by_cases h : st.roleSent
  · simp only [h, if_true]
    exact argsPreceded_nil
  · simp only [h, if_false]
    exact argsPreceded_single _ fun i => rfl

lemma argsPreceded_contentWrites (rid : JStr) (cr : Nat) (m : JStr) (oc : Option JStr) :
    argsPreceded (contentWrites (fun b => Write.frame ⟨rid, cr, m, b⟩) oc) := by
  unfold contentWrites
  cases oc with
  | none => exact argsPreceded_nil
  | some s =>
    by_cases h : s.isEmpty
    · simp only [h, if_true]
      exact argsPreceded_nil
    · simp only [h, if_false]
      exact argsPreceded_single _ fun i => rfl

lemma argsPreceded_finishWrites (rid : JStr) (cr : Nat) (m : JStr)
    (ofr usage : Option JStr) :
    argsPreceded (finishWrites (fun b => Write.frame ⟨rid, cr, m, b⟩) ofr usage) := by
  unfold finishWrites
  cases ofr with
  | none => exact argsPreceded_nil
  | some r =>
    by_cases h : r.isEmpty
    · simp only [h, if_true]
      exact argsPreceded_nil
    · simp only [h, if_false]
      exact argsPreceded_single _ fun i => rfl

lemma argsPreceded_deltaToolWrites (rid : JStr) (cr : Nat) (m : JStr)
    (otc : Option (List ToolCallDelta)) :
    argsPreceded (deltaToolWrites (fun b => Write.frame ⟨rid, cr, m, b⟩) otc) := by
  unfold deltaToolWrites
  cases otc with
  | none => exact argsPreceded_nil
  | some tcs => exact argsPreceded_toolCallWrites rid cr m tcs

lemma processChunk_argsPreceded (m : JStr) (st : StreamState) (c : ZhipuChunk) :
    argsPreceded (processChunk m st c).2 := by
  unfold processChunk
  cases hh : c.choices.head? with
  | none =>
    simp only [hh]
    exact argsPreceded_roleWrites _ _ m st
  | some choice =>
    simp only [hh]
    exact argsPreceded_append (argsPreceded_append (argsPreceded_append
      (argsPreceded_roleWrites _ _ m st)
      (argsPreceded_contentWrites _ _ m _))
      (argsPreceded_deltaToolWrites _ _ m _))
      (argsPreceded_finishWrites _ _ m _ _)

lemma processLine_argsPreceded (m : JStr) (st : StreamState) (l : UpLine) :
    argsPreceded (processLine m st l).2 := by
  cases l with
  | notData raw => exact argsPreceded_nil
  | doneLine => exact argsPreceded_nil
  | badJson raw => exact argsPreceded_nil
  | chunk c => exact processChunk_argsPreceded m st c

lemma processLines_argsPreceded (m : JStr) (st : StreamState) (lines : List UpLine) :
    argsPreceded (processLines m st lines).2 := by
  induction lines generalizing st with
  | nil => exact argsPreceded_nil
  | cons l ls ih =>
    exact argsPreceded_append (processLine_argsPreceded m st l) (ih _)

lemma runStream_argsPreceded (m r0 : JStr) (c0 : Nat) (lines : List UpLine)
    (t : Terminal) : argsPreceded (runStream m r0 c0 lines t) := by
  unfold runStream
  cases t with
  | endEvent =>
    exact argsPreceded_append (processLines_argsPreceded m _ lines)
      (argsPreceded_single _ fun i => rfl)
  | errorEvent => exact processLines_argsPreceded m _ lines

/-- C2: in every streamed exchange, for every tool-call index `i`, any
argument-fragment frame for index `i` is emitted strictly after a header
frame for index `i` (the header carries the id, `type: 'function'`, the
function name and an empty arguments string). -/
theorem claim_c2_header_before_args (m r0 : JStr) (c0 : Nat) (lines : List UpLine)
    (t : Terminal) (i p : Nat)
    (h : ((runStream m r0 c0 lines t)[p]?.any (writeIsArgs i)) = true) :
    ∃ q, q < p ∧ ((runStream m r0 c0 lines t)[q]?.any (writeIsHeader i)) = true :=
  runStream_argsPreceded m r0 c0 lines t p i h

/-- A concrete upstream frame carrying one named tool call, used by the C2
witness: the transcoder emits role, header, argument frames in that order. -/
def c2ExampleChunk : ZhipuChunk :=
  { id := some "chatcmpl-1".toList
  , created := some 5
  , choices :=
      [ { delta := some
            { content := none
            , tool_calls :=
                some [ { id := some "t1".toList
                       , function := some { name := some "fn".toList
                                          , arguments := some "ARGS".toList } } ] }
        , finish_reason := none } ]
  , usage := none }

/-- Witness for C2: on the concrete exchange above, position 2 carries the
argument fragment for index 0, and a header for index 0 exists strictly
before it. -/
theorem claim_c2_header_before_args_witness :
    (((runStream "glm-4.6:latest".toList "req0".toList 3 [UpLine.chunk c2ExampleChunk]
        Terminal.endEvent)[2]?.any (writeIsArgs 0)) = true)
    ∧ ∃ q, q < 2 ∧
        (((runStream "glm-4.6:latest".toList "req0".toList 3 [UpLine.chunk c2ExampleChunk]
            Terminal.endEvent)[q]?.any (writeIsHeader 0)) = true) :=
  ⟨by decide,
    claim_c2_header_before_args "glm-4.6:latest".toList "req0".toList 3
      [UpLine.chunk c2ExampleChunk] Terminal.endEvent 0 2 (by decide)⟩

-- ---------------------------------------------------------------------------
-- C3: which upstream tool-call entries produce frames
-- ---------------------------------------------------------------------------

/-- The guard of chat.ts line 198: the entry survives
`if (!toolCall.function || !toolCall.function.name) continue;`. -/
def tcNameOk (tc : ToolCallDelta) : Bool :=
  match tc.function with
  | some fn =>
    match fn.name with
    | some n => !n.isEmpty
    | none => false
  | none => false

/-- The `delta.tool_calls` array of the first choice of a parsed frame
(`zhipuChunk.choices?.[0]`, `choice.delta || {}`). -/
def firstDeltaToolCalls (c : ZhipuChunk) : Option (List ToolCallDelta) :=
  match c.choices.head? with
  | some choice => (choice.delta.getD ⟨none, none⟩).tool_calls
  | none => none

lemma flatMap_infix {α β : Type} (f : α → List β) {x : α} {l : List α} (hx : x ∈ l) :
    f x <:+: l.flatMap f := by
  induction l with
  | nil => cases hx
  | cons y ys ih =>
    rw [List.flatMap_cons]
    rcases List.mem_cons.mp hx with h | h
    · subst h
      exact (List.prefix_append (f x) (ys.flatMap f)).isInfix
    · exact (ih h).trans (List.suffix_append (f y) (ys.flatMap f)).isInfix

lemma getElem?_of_infix_pair {α : Type} {x y : α} {l : List α}
    (h : [x, y] <:+: l) : ∃ p : Nat, l[p]? = some x ∧ l[p + 1]? = some y := by
  obtain ⟨s, t, hst⟩ := h
  refine ⟨s.length, ?_, ?_⟩
  · rw [← hst, List.getElem?_append_left (by simp)]
    rw [List.getElem?_append_right (le_refl _)]
    simp
  · rw [← hst, List.getElem?_append_left (by simp)]
    rw [List.getElem?_append_right (by omega)]
    have : s.length + 1 - s.length = 1 := by omega
    rw [this]
    rfl

/-- An entry that passes the name guard contributes its header/args pair as a
contiguous infix of the tool-call writes. -/
lemma toolCallWrites_entry_infix (rid : JStr) (cr : Nat) (m : JStr)
    (tcs : List ToolCallDelta) (i : Nat) (tc : ToolCallDelta)
    (hget : tcs[i]? = some tc) (fn : ToolCallFn) (hfn : tc.function = some fn)
    (n : JStr) (hn : fn.name = some n) (hne : n.isEmpty = false) :
    [Write.frame ⟨rid, cr, m, .toolHeader i tc.id n⟩,
     Write.frame ⟨rid, cr, m, .toolArgs i (fn.arguments.getD [])⟩]
      <:+: toolCallWrites (fun b => Write.frame ⟨rid, cr, m, b⟩) tcs := by
  have hmem : (i, tc) ∈ tcs.enum := List.mk_mem_enum_iff_getElem?.mpr hget
  have hinf := flatMap_infix
    (f := fun p : Nat × ToolCallDelta =>
      match p.2.function with
      | none => ([] : List Write)
      | some fn =>
        match fn.name with
        | none => []
        | some n =>
          if n.isEmpty then []
          else
            [Write.frame ⟨rid, cr, m, .toolHeader p.1 p.2.id n⟩,
             Write.frame ⟨rid, cr, m, .toolArgs p.1 (fn.arguments.getD [])⟩])
    hmem
  simp only [hfn, hn, hne, if_false] at hinf
  exact hinf

/-- Any header or argument frame in the tool-call writes comes from the entry
at its own index, and that entry passes the name guard. -/
lemma toolCallWrites_entry_of_tool_frame (rid : JStr) (cr : Nat) (m : JStr)
    (tcs : List ToolCallDelta) (i : Nat) (w : Write)
    (hw : w ∈ toolCallWrites (fun b => Write.frame ⟨rid, cr, m, b⟩) tcs)
    (hargs : writeIsArgs i w = true ∨ writeIsHeader i w = true) :
    ∃ tc, tcs[i]? = some tc ∧ tcNameOk tc = true := by
  simp only [toolCallWrites, List.mem_flatMap] at hw
  obtain ⟨⟨j, tc'⟩, hjmem, hp⟩ := hw
  have hj : tcs[j]? = some tc' := List.mk_mem_enum_iff_getElem?.mp hjmem
  rcases tc' with ⟨tid, tfn⟩
  cases tfn with
  | none => simp at hp
  | some fn =>
    rcases fn with ⟨fname, fargs⟩
    cases fname with
    | none => simp at hp
    | some n =>
      by_cases hne : n.isEmpty
      · simp [hne] at hp
      · simp only [hne, if_false, List.mem_cons, List.mem_singleton,
          List.not_mem_nil, or_false] at hp
        have hji : j = i := by
          rcases hp with hp | hp
          · rcases hargs with ha | ha
            · simp only [writeIsArgs] at ha
              exact Bool.noConfusion ha
            · simp only [writeIsHeader] at ha
              exact eq_of_beq ha
          · rename_i hp2
            cases hp2 with
            | tail _ h => cases h
            | head =>
              rcases hargs with ha | ha
              · simp only [writeIsArgs] at ha
                exact eq_of_beq ha
              · simp only [writeIsHeader] at ha
                exact Bool.noConfusion ha
        subst hji
        refine ⟨⟨tid, some ⟨some n, fargs⟩⟩, hj, ?_⟩
        simp [tcNameOk, hne]

lemma roleWrites_no_tool (rid : JStr) (cr : Nat) (m : JStr) (st : StreamState)
    (i : Nat) :
    ∀ w ∈ roleWrites (fun b => Write.frame ⟨rid, cr, m, b⟩) st,
      writeIsArgs i w = false ∧ writeIsHeader i w = false := by
  intro w hw
  unfold roleWrites at hw
  by_cases h : st.roleSent
  · simp [h] at hw
  · simp [h] at hw
    subst hw
    exact ⟨rfl, rfl⟩

lemma contentWrites_no_tool (rid : JStr) (cr : Nat) (m : JStr) (oc : Option JStr)
    (i : Nat) :
    ∀ w ∈ contentWrites (fun b => Write.frame ⟨rid, cr, m, b⟩) oc,
      writeIsArgs i w = false ∧ writeIsHeader i w = false := by
  intro w hw
  unfold contentWrites at hw
  cases oc with
  | none => simp at hw
  | some s =>
    by_cases h : s.isEmpty
    · simp [h] at hw
    · simp [h] at hw
      subst hw
      exact ⟨rfl, rfl⟩

lemma finishWrites_no_tool (rid : JStr) (cr : Nat) (m : JStr)
    (ofr usage : Option JStr) (i : Nat) :
    ∀ w ∈ finishWrites (fun b => Write.frame ⟨rid, cr, m, b⟩) ofr usage,
      writeIsArgs i w = false ∧ writeIsHeader i w = false := by
  intro w hw
  unfold finishWrites at hw
  cases ofr with
  | none => simp at hw
  | some r =>
    by_cases h : r.isEmpty
    · simp [h] at hw
    · simp [h] at hw
      subst hw
      exact ⟨rfl, rfl⟩

/-- A concrete upstream frame whose only tool-call entry carries an
arguments piece but no `function.name`, as happens when an upstream fragments
tool-call arguments across deltas. -/
def c3ArgsOnlyChunk : ZhipuChunk :=
  { id := none
  , created := none
  , choices :=
      [ { delta := some
            { content := none
            , tool_calls :=
                some [ { id := none
                       , function := some { name := none
                                          , arguments := some "ARGS-PIECE".toList } } ] }
        , finish_reason := none } ]
  , usage := none }

/-- Counterexample to C3 as stated: the upstream delta above carries a
tool-call entry at index 0 holding only an arguments piece, yet the exchange
emits no argument-fragment frame (and no header) for index 0 at all — the
guard `if (!toolCall.function || !toolCall.function.name) continue;`
(chat.ts line 198) drops the entry, so its arguments are never forwarded. -/
theorem claim_c3_counterexample :
    (runStream "glm-4.6".toList "r".toList 0 [UpLine.chunk c3ArgsOnlyChunk]
        Terminal.endEvent).all
      (fun w => !writeIsArgs 0 w && !writeIsHeader 0 w) = true := by
  decide

/-- C3 amended: for every parsed upstream frame whose first choice's delta
carries `tool_calls`, an entry at index `i` produces frames exactly when its
`function.name` is present and non-empty; such an entry yields a header frame
immediately followed by one argument frame carrying
`toolCall.function.arguments || ''`; an entry failing the name guard produces
no frame for its index at all, so its arguments are silently dropped. -/
theorem claim_c3_amended (m : JStr) (st : StreamState) (c : ZhipuChunk)
    (tcs : List ToolCallDelta) (i : Nat) (tc : ToolCallDelta)
    (htcs : firstDeltaToolCalls c = some tcs) (hget : tcs[i]? = some tc) :
    (∀ fn n, tc.function = some fn → fn.name = some n → n.isEmpty = false →
      ∃ p : Nat,
        (processChunk m st c).2[p]? =
          some (Write.frame ⟨pinId st c.id, pinCreated st c.created, m,
            .toolHeader i tc.id n⟩)
        ∧ (processChunk m st c).2[p + 1]? =
          some (Write.frame ⟨pinId st c.id, pinCreated st c.created, m,
            .toolArgs i (fn.arguments.getD [])⟩))
    ∧ (tcNameOk tc = false →
        (processChunk m st c).2.all
          (fun w => !writeIsArgs i w && !writeIsHeader i w) = true) := by
  cases hh : c.choices.head? with
  | none =>
    simp only [firstDeltaToolCalls, hh] at htcs
    exact Option.noConfusion htcs
  | some choice =>
    simp only [firstDeltaToolCalls, hh] at htcs
    have hout : (processChunk m st c).2
        = roleWrites (fun b => Write.frame ⟨pinId st c.id, pinCreated st c.created, m, b⟩) st
          ++ contentWrites (fun b => Write.frame ⟨pinId st c.id, pinCreated st c.created, m, b⟩)
              (choice.delta.getD ⟨none, none⟩).content
          ++ toolCallWrites (fun b => Write.frame ⟨pinId st c.id, pinCreated st c.created, m, b⟩)
              tcs
          ++ finishWrites (fun b => Write.frame ⟨pinId st c.id, pinCreated st c.created, m, b⟩)
              choice.finish_reason c.usage := by
      unfold processChunk
      simp only [hh, htcs, deltaToolWrites]
    constructor
    · intro fn n hfn hn hne
      have hpair := toolCallWrites_entry_infix (pinId st c.id) (pinCreated st c.created) m
        tcs i tc hget fn hfn n hn hne
      have hinfix := hpair.trans
        (List.infix_append
          (roleWrites (fun b => Write.frame ⟨pinId st c.id, pinCreated st c.created, m, b⟩) st
            ++ contentWrites (fun b => Write.frame ⟨pinId st c.id, pinCreated st c.created, m, b⟩)
                (choice.delta.getD ⟨none, none⟩).content)
          (toolCallWrites (fun b => Write.frame ⟨pinId st c.id, pinCreated st c.created, m, b⟩)
            tcs)
          (finishWrites (fun b => Write.frame ⟨pinId st c.id, pinCreated st c.created, m, b⟩)
            choice.finish_reason c.usage))
      rw [← hout] at hinfix
      exact getElem?_of_infix_pair hinfix
    · intro hnot
      rw [List.all_eq_true]
      intro w hw
      rw [hout] at hw
      simp only [List.mem_append] at hw
      rcases hw with ((hw | hw) | hw) | hw
      · obtain ⟨h1, h2⟩ := roleWrites_no_tool _ _ m st i w hw
        simp [h1, h2]
      · obtain ⟨h1, h2⟩ := contentWrites_no_tool _ _ m _ i w hw
        simp [h1, h2]
      · cases hA : writeIsArgs i w with
        | true =>
          obtain ⟨tc', htc', hok⟩ :=
            toolCallWrites_entry_of_tool_frame _ _ m tcs i w hw (Or.inl hA)
          rw [hget] at htc'
          injection htc' with he
          rw [he] at hnot
          rw [hnot] at hok
          exact Bool.noConfusion hok
        | false =>
          cases hH : writeIsHeader i w with
          | true =>
            obtain ⟨tc', htc', hok⟩ :=
              toolCallWrites_entry_of_tool_frame _ _ m tcs i w hw (Or.inr hH)
            rw [hget] at htc'
            injection htc' with he
            rw [he] at hnot
            rw [hnot] at hok
            exact Bool.noConfusion hok
          | false => simp [hA, hH]
      · obtain ⟨h1, h2⟩ := finishWrites_no_tool _ _ m _ _ i w hw
        simp [h1, h2]

/-- A concrete upstream frame with one fully-specified tool call, used by the
C3 witness. -/
def c3NamedChunk : ZhipuChunk :=
  { id := none
  , created := none
  , choices :=
      [ { delta := some
            { content := none
            , tool_calls :=
                some [ { id := some "t9".toList
                       , function := some { name := some "lookup".toList
                                          , arguments := some "PIECE".toList } } ] }
        , finish_reason := none } ]
  , usage := none }

/-- Witness for C3 (amended): on the concrete frame above, the transcoder
emits the index-0 header immediately followed by the index-0 argument frame
carrying the entry's arguments. -/
theorem claim_c3_amended_witness :
    (firstDeltaToolCalls c3NamedChunk
        = some [ { id := some "t9".toList
                 , function := some { name := some "lookup".toList
                                    , arguments := some "PIECE".toList } } ])
    ∧ ∃ p : Nat,
        (processChunk "glm-4.6".toList (initState "r".toList 0) c3NamedChunk).2[p]? =
          some (Write.frame ⟨pinId (initState "r".toList 0) c3NamedChunk.id,
            pinCreated (initState "r".toList 0) c3NamedChunk.created, "glm-4.6".toList,
            .toolHeader 0 (some "t9".toList) "lookup".toList⟩)
        ∧ (processChunk "glm-4.6".toList (initState "r".toList 0) c3NamedChunk).2[p + 1]? =
          some (Write.frame ⟨pinId (initState "r".toList 0) c3NamedChunk.id,
            pinCreated (initState "r".toList 0) c3NamedChunk.created, "glm-4.6".toList,
            .toolArgs 0 "PIECE".toList⟩) :=
  ⟨by decide,
    (claim_c3_amended "glm-4.6".toList (initState "r".toList 0) c3NamedChunk
        [ { id := some "t9".toList
          , function := some { name := some "lookup".toList
                             , arguments := some "PIECE".toList } } ]
        0
        { id := some "t9".toList
        , function := some { name := some "lookup".toList
                           , arguments := some "PIECE".toList } }
        (by decide) (by decide)).1
      { name := some "lookup".toList, arguments := some "PIECE".toList }
      "lookup".toList rfl rfl (by decide)⟩

-- ---------------------------------------------------------------------------
-- C5 (streaming half): every emitted frame echoes the requested model
-- ---------------------------------------------------------------------------

/-- A client write carries the requested model (the `[DONE]` sentinel carries
no JSON body, so it is vacuously fine). -/
def writeModelOk (m : JStr) : Write → Bool
  | .frame f => f.model == m
  | .doneSentinel => true

lemma processChunk_modelOk (m : JStr) (st : StreamState) (c : ZhipuChunk) :
    (processChunk m st c).2.all (writeModelOk m) = true := by
  rw [List.all_eq_true]
  intro w hw
  obtain ⟨b, hb⟩ := processChunk_shape m st c w hw
  subst hb
  simp [writeModelOk]

lemma processLines_modelOk (m : JStr) (st : StreamState) (lines : List UpLine) :
    (processLines m st lines).2.all (writeModelOk m) = true := by
  induction lines generalizing st with
  | nil => rfl
  | cons l ls ih =>
    simp only [processLines, List.all_append, Bool.and_eq_true]
    refine ⟨?_, ih _⟩
    cases l with
    | notData raw => rfl
    | doneLine => rfl
    | badJson raw => rfl
    | chunk c => exact processChunk_modelOk m st c

-- ---------------------------------------------------------------------------
-- Non-streaming response construction (chat.ts lines 96-123 and 248-307)
-- ---------------------------------------------------------------------------

/-- The value found in a tool call's `function.arguments` slot before
normalization: a string (left untouched), a JSON-serializable non-string
(`ser` is its `JSON.stringify` image), an absent value (`arguments ?? \x7b\x7d`
stringifies the empty object), or a value whose serialization throws
(`repr` is its `String(...)` fallback). -/
inductive ArgsVal where
  | strv (s : JStr)
  | jsonv (ser : JStr)
  | undef
  | circular (repr : JStr)
deriving DecidableEq

/-- Embeds `JSON.stringify(arguments ?? ...)` (empty object when absent) with the `catch` fallback
`String(arguments ?? '')` (chat.ts lines 114-119). -/
def stringifyArgs : ArgsVal → JStr
  | .strv s => s
  | .jsonv ser => ser
  | .undef => "\x7b\x7d".toList
  | .circular r => r

/-- A tool call as found in (or written back into) a non-streaming upstream
message. -/
structure ToolCallFnV where
  name : Option JStr
  arguments : ArgsVal
deriving DecidableEq

structure ToolCallV where
  id : Option JStr
  typ : Option JStr
  function : Option ToolCallFnV
deriving DecidableEq

/-- Embeds the per-element body of `normalizeToolCalls` (chat.ts lines 108-121):
generate `call_<uuid>` when `id` is falsy, force `type: 'function'`, default
the function object and its name to `'unnamed'`, stringify non-string
arguments.  `freshId` stands for the `randomUUID()` draw of this element. -/
def normalizeToolCall (freshId : JStr) (t : ToolCallV) : ToolCallV :=
  let id :=
    match t.id with
    | some s => if s.isEmpty then "call_".toList ++ freshId else s
    | none => "call_".toList ++ freshId
  let fn :=
    match t.function with
    | some f => f
    | none => { name := some "unnamed".toList, arguments := .strv [] }
  let fnName :=
    match fn.name with
    | some n => if n.isEmpty then "unnamed".toList else n
    | none => "unnamed".toList
  { id := some id
  , typ := some "function".toList
  , function := some { name := some fnName, arguments := .strv (stringifyArgs fn.arguments) } }

/-- Embeds `normalizeToolCalls` (chat.ts lines 106-123) on a present array; `fresh`
supplies one `randomUUID()` draw per element position. -/
def normalizeToolCalls (fresh : Nat → JStr) (ts : List ToolCallV) : List ToolCallV :=
  ts.enum.map fun p => normalizeToolCall (fresh p.1) p.2

/-- An upstream non-streaming message: `content` is `some` exactly when the
field holds a string (a `null` or absent content is `none`). -/
structure NMessage where
  role : Option JStr
  content : Option JStr
  tool_calls : Option (List ToolCallV)
deriving DecidableEq

/-- An upstream non-streaming choice, with every field probed by
`extractChoiceContent` (chat.ts lines 96-104); an `Option JStr` field is
`some` exactly when the JavaScript value is a string. -/
structure NChoice where
  message : Option NMessage
  delta : Option UpDelta
  text : Option JStr
  content : Option JStr
  contents : Option (List JStr)
  finish_reason : Option JStr
  reasoning : Option JStr
deriving DecidableEq

/-- An upstream non-streaming response (`zhipuResp`); an absent `choices`
array behaves as `[]` (`zhipuResp.choices || []`). -/
structure NResp where
  id : JStr
  created : Nat
  choices : List NChoice
  usage : Option JStr
deriving DecidableEq

/-- JavaScript `String(array)`: elements joined with `','`. -/
def jsArrayToString (l : List JStr) : JStr := (List.intersperse ",".toList l).flatten

/-- Embeds `extractChoiceContent` (chat.ts lines 96-104): probe
`message.content`, `delta.content`, `text`, `content`, then a non-empty
`contents` array, returning `''` when nothing matches. -/
def extractChoiceContent (c : NChoice) : JStr :=
  match c.message.bind (fun msg => msg.content) with
  | some s => s
  | none =>
    match c.delta.bind (fun d => d.content) with
    | some s => s
    | none =>
      match c.text with
      | some s => s
      | none =>
        match c.content with
        | some s => s
        | none =>
          match c.contents with
          | some l => if l.isEmpty then [] else jsArrayToString l
          | none => []

/-- The in-place pre-normalization of the first choice's tool calls
(chat.ts lines 252-255). -/
def preNormalizeResp (fresh0 : Nat → JStr) (resp : NResp) : NResp :=
  match resp.choices with
  | [] => resp
  | c0 :: rest =>
    match c0.message with
    | none => resp
    | some msg =>
      match msg.tool_calls with
      | none => resp
      | some ts =>
        { resp with
            choices :=
              { c0 with
                  message := some { msg with tool_calls := some (normalizeToolCalls fresh0 ts) } }
                :: rest }

/-- The truthiness of `c.message?.tool_calls` (an array, even empty, is truthy). -/
def choiceToolCalls (c : NChoice) : Option (List ToolCallV) :=
  match c.message with
  | some msg => msg.tool_calls
  | none => none

/-- The client-visible message of one completions choice
(chat.ts lines 259-266). -/
structure OutMessage where
  role : JStr
  content : Option JStr
  tool_calls : Option (List ToolCallV)
deriving DecidableEq

structure OutChoice where
  index : Nat
  message : OutMessage
  finish_reason : JStr
deriving DecidableEq

structure Completion where
  id : JStr
  object : JStr
  created : Nat
  model : JStr
  choices : List OutChoice
  usage : Option JStr
deriving DecidableEq

/-- One mapped completions choice (chat.ts lines 258-267): content is `null`
when the upstream message carries `tool_calls`, otherwise the extracted text;
`tool_calls` is attached (normalized) only when present upstream. -/
def buildCompletionChoice (fresh : Nat → Nat → JStr) (idx : Nat) (c : NChoice) : OutChoice :=
  let content := extractChoiceContent c
  let tcs := choiceToolCalls c
  { index := idx
  , message :=
      { role := "assistant".toList
      , content := if tcs.isSome then none else some content
      , tool_calls :=
          match tcs with
          | some ts => some (normalizeToolCalls (fresh idx) ts)
          | none => none }
  , finish_reason := c.finish_reason.getD "stop".toList }

/-- The `/v1/chat/completions` non-streaming response
(chat.ts lines 250-281): pre-normalize the first choice's tool calls, map
every choice, echo the requested model. -/
def buildCompletions (requestedModel : JStr) (fresh0 : Nat → JStr)
    (fresh : Nat → Nat → JStr) (resp : NResp) : Completion :=
  let r := preNormalizeResp fresh0 resp
  { id := r.id
  , object := "chat.completion".toList
  , created := r.created
  , model := requestedModel
  , choices := r.choices.enum.map fun p => buildCompletionChoice fresh p.1 p.2
  , usage := r.usage }

def natToJStr (n : Nat) : JStr := (Nat.repr n).toList

/-- One output of the `/v1/responses` non-streaming response
(chat.ts lines 283-299); `content` keeps the `output_text` texts. -/
structure ROutput where
  id : JStr
  typ : JStr
  role : JStr
  content : List JStr
  finish_reason : JStr
  tool_calls : Option (List ToolCallV)
  reasoning : Option JStr
deriving DecidableEq

structure RResp where
  id : JStr
  object : JStr
  created : Nat
  model : JStr
  outputs : List ROutput
  usage : Option JStr
deriving DecidableEq

def buildResponsesOutput (fresh : Nat → Nat → JStr) (respId : JStr) (idx : Nat)
    (c : NChoice) : ROutput :=
  let contentText := extractChoiceContent c
  { id := respId ++ "-".toList ++ natToJStr idx
  , typ := "message".toList
  , role := "assistant".toList
  , content := if contentText.isEmpty then [] else [contentText]
  , finish_reason := c.finish_reason.getD "stop".toList
  , tool_calls :=
      match choiceToolCalls c with
      | some ts => some (normalizeToolCalls (fresh idx) ts)
      | none => none
  , reasoning :=
      match c.reasoning with
      | some r => if r.isEmpty then none else some r
      | none => none }

/-- The `/v1/responses` non-streaming response (chat.ts lines 282-307). -/
def buildResponses (requestedModel : JStr) (fresh0 : Nat → JStr)
    (fresh : Nat → Nat → JStr) (resp : NResp) : RResp :=
  let r := preNormalizeResp fresh0 resp
  { id := r.id
  , object := "response".toList
  , created := r.created
  , model := requestedModel
  , outputs := r.choices.enum.map fun p => buildResponsesOutput fresh r.id p.1 p.2
  , usage := r.usage }

-- ---------------------------------------------------------------------------
-- The direct-mode /v1/chat/completions handler of src/server.ts
-- (lines 310-346: choice mapping; lines 349-406: SSE conversion)
-- ---------------------------------------------------------------------------

/-- Upstream message/delta as probed by the server handler
(`typeof ... === 'string'` checks; `some` exactly when a string). -/
structure SrvMsgIn where
  role : Option JStr
  content : Option JStr
deriving DecidableEq

/-- An upstream `finish_reason`: a string, `null`, or anything else
(coerced to `null` by lines 325-327). -/
inductive SrvFin where
  | fstr (s : JStr)
  | fnull
  | fother
deriving DecidableEq

structure SrvChoiceIn where
  message : Option SrvMsgIn
  delta : Option SrvMsgIn
  index : Option Nat
  finish_reason : SrvFin
deriving DecidableEq

/-- The upstream response as probed by server.ts (`typeof` /
`Array.isArray` guards; `none` models a missing or wrongly-typed field). -/
structure SrvRespIn where
  id : Option JStr
  created : Option Nat
  choices : Option (List SrvChoiceIn)
  usage : Option JStr
deriving DecidableEq

structure SrvOutChoice where
  index : Nat
  role : JStr
  content : JStr
  finish_reason : Option JStr
deriving DecidableEq

/-- One mapped choice (server.ts lines 311-329). -/
def mapSrvChoice (idx : Nat) (c : SrvChoiceIn) : SrvOutChoice :=
  let role :=
    match c.message.bind (fun msg => msg.role) with
    | some r => r
    | none =>
      match c.delta.bind (fun d => d.role) with
      | some r => r
      | none => "assistant".toList
  let content :=
    match c.message.bind (fun msg => msg.content) with
    | some s => s
    | none =>
      match c.delta.bind (fun d => d.content) with
      | some s => s
      | none => []
  { index := c.index.getD idx
  , role := role
  , content := content
  , finish_reason :=
      match c.finish_reason with
      | .fstr s => some s
      | .fnull => none
      | .fother => none }

/-- Lines 310-337: map the choices, then push a default choice when the
result is empty. -/
def srvChoices (resp : SrvRespIn) : List SrvOutChoice :=
  let base := (resp.choices.getD []).enum.map fun p => mapSrvChoice p.1 p.2
  if base.isEmpty then
    [{ index := 0, role := "assistant".toList, content := [], finish_reason := some "stop".toList }]
  else base

structure SrvCompletion where
  id : JStr
  object : JStr
  created : Nat
  model : JStr
  choices : List SrvOutChoice
  usage : Option JStr
deriving DecidableEq

/-- The completion object of server.ts lines 340-347; `genId`/`genCreated`
stand for the locally generated fallbacks. -/
def srvCompletion (requestedModel : JStr) (genId : JStr) (genCreated : Nat)
    (resp : SrvRespIn) : SrvCompletion :=
  { id := resp.id.getD genId
  , object := "chat.completion".toList
  , created := resp.created.getD genCreated
  , model := requestedModel
  , choices := srvChoices resp
  , usage := resp.usage }

/-- One synthesized SSE event of the server's stream conversion. -/
inductive SrvPayload where
  | roleP
  | contentP (piece : JStr)
  | finishP (reason : JStr)
deriving DecidableEq

inductive SrvEvent where
  | dataEvt (id : JStr) (created : Nat) (model : JStr) (payload : SrvPayload)
  | doneEvt
deriving DecidableEq

/-- Embeds `choices.map((c) => c.message?.content || "").join("")` (line 339). -/
def srvAccumulated (ch : List SrvOutChoice) : JStr := (ch.map (fun c => c.content)).flatten

/-- Embeds `choices.find((c) => c.finish_reason)?.finish_reason || "stop"` (line 382). -/
def srvFinishReason (ch : List SrvOutChoice) : JStr :=
  match ch.find? (fun c =>
      match c.finish_reason with
      | some s => !s.isEmpty
      | none => false) with
  | some c => c.finish_reason.getD "stop".toList
  | none => "stop".toList

/-- The SSE conversion of a buffered completion (server.ts lines 360-391):
one role event, one content event per non-empty 1024-byte chunk, a finish
event, then the `[DONE]` sentinel. -/
def srvSseEvents (c : SrvCompletion) : List SrvEvent :=
  let pieces := (chunkText (srvAccumulated c.choices) 1024 (by decide)).filter
    (fun p => !p.isEmpty)
  [SrvEvent.dataEvt c.id c.created c.model .roleP]
    ++ pieces.map (fun p => SrvEvent.dataEvt c.id c.created c.model (.contentP p))
    ++ [SrvEvent.dataEvt c.id c.created c.model (.finishP (srvFinishReason c.choices)),
        SrvEvent.doneEvt]

/-- A synthesized SSE event carries the completion's model. -/
def srvEventModelOk (m : JStr) : SrvEvent → Bool
  | .dataEvt _ _ mdl _ => mdl == m
  | .doneEvt => true

lemma srvSseEvents_modelOk (c : SrvCompletion) :
    (srvSseEvents c).all (srvEventModelOk c.model) = true := by
  rw [List.all_eq_true]
  intro e he
  unfold srvSseEvents at he
  simp only [List.mem_append, List.mem_cons, List.mem_singleton, List.not_mem_nil,
    or_false, List.mem_map] at he
  rcases he with (he | ⟨p, hp, he⟩) | he | he
  all_goals subst he
  all_goals simp [srvEventModelOk]

-- ---------------------------------------------------------------------------
-- C5: the client-visible model field always echoes the request
-- ---------------------------------------------------------------------------

/-- C5: the `model` field visible to the client equals the client's original
request string in every case: every streamed frame of the chat route, the
non-streaming completions response, the non-streaming responses-API response,
the direct-mode server completion, and every synthesized SSE event of the
direct-mode stream conversion. -/
theorem claim_c5_model_echo (m r0 : JStr) (c0 : Nat) (lines : List UpLine)
    (t : Terminal) (fresh0 : Nat → JStr) (fresh : Nat → Nat → JStr) (resp : NResp)
    (genId : JStr) (genCreated : Nat) (sresp : SrvRespIn) :
    (runStream m r0 c0 lines t).all (writeModelOk m) = true
    ∧ (buildCompletions m fresh0 fresh resp).model = m
    ∧ (buildResponses m fresh0 fresh resp).model = m
    ∧ (srvCompletion m genId genCreated sresp).model = m
    ∧ (srvSseEvents (srvCompletion m genId genCreated sresp)).all
        (srvEventModelOk m) = true := by
  refine ⟨?_, rfl, rfl, rfl, srvSseEvents_modelOk (srvCompletion m genId genCreated sresp)⟩
  unfold runStream
  cases t with
  | endEvent =>
    simp only [List.all_append, Bool.and_eq_true]
    exact ⟨processLines_modelOk m _ lines, rfl⟩
  | errorEvent => exact processLines_modelOk m _ lines

-- ---------------------------------------------------------------------------
-- C10: non-streaming tool-call normalization and content suppression
-- ---------------------------------------------------------------------------

/-- A fully normalized tool call: a non-empty id, `type: 'function'`, a
non-empty function name, and string arguments. -/
def normalizedToolCallP (t : ToolCallV) : Prop :=
  (∃ s, t.id = some s ∧ s ≠ [])
  ∧ t.typ = some "function".toList
  ∧ ∃ f, t.function = some f
      ∧ (∃ n, f.name = some n ∧ n ≠ [])
      ∧ ∃ a, f.arguments = .strv a

lemma normalizeToolCall_normalized (freshId : JStr) (t : ToolCallV) :
    normalizedToolCallP (normalizeToolCall freshId t) := by
  unfold normalizeToolCall normalizedToolCallP
  refine ⟨?_, rfl, ?_⟩
  · cases ht : t.id with
    | none =>
      refine ⟨"call_".toList ++ freshId, rfl, ?_⟩
      simp
    | some s =>
      by_cases hs : s.isEmpty
      · refine ⟨"call_".toList ++ freshId, by simp [hs], by simp⟩
      · refine ⟨s, by simp [hs], ?_⟩
        intro hnil
        subst hnil
        simp at hs
  · cases hf : t.function with
    | none =>
      refine ⟨_, rfl, ⟨"unnamed".toList, rfl, by simp⟩, _, rfl⟩
    | some f =>
      cases hn : f.name with
      | none =>
        refine ⟨_, rfl, ⟨"unnamed".toList, ?_, by simp⟩, _, rfl⟩
        simp [hn]
      | some n =>
        by_cases hne : n.isEmpty
        · refine ⟨_, rfl, ⟨"unnamed".toList, ?_, by simp⟩, _, rfl⟩
          simp [hn, hne]
        · refine ⟨_, rfl, ⟨n, ?_, ?_⟩, _, rfl⟩
          · simp [hn, hne]
          · intro hnil
            subst hnil
            simp at hne

lemma normalizeToolCalls_normalized (fresh : Nat → JStr) (ts : List ToolCallV) :
    ∀ t ∈ normalizeToolCalls fresh ts, normalizedToolCallP t := by
  intro t ht
  unfold normalizeToolCalls at ht
  rw [List.mem_map] at ht
  obtain ⟨p, -, hp⟩ := ht
  subst hp
  exact normalizeToolCall_normalized _ _

lemma getElem?_enum_map {α β : Type} (f : Nat × α → β) (l : List α) (i : Nat) :
    (l.enum.map f)[i]? = (l[i]?).map fun x => f (i, x) := by
  rw [List.getElem?_map, List.getElem?_enum]
  cases l[i]? <;> rfl

/-- The pre-normalization of the first choice's tool calls preserves, for
every index, the presence of `tool_calls`, the extracted content, and the
finish reason; choices without tool calls are untouched. -/
lemma preNormalizeResp_eq_nil (fresh0 : Nat → JStr) (resp : NResp)
    (h : resp.choices = []) : preNormalizeResp fresh0 resp = resp := by
  unfold preNormalizeResp
  rw [h]

lemma preNormalizeResp_eq_nomsg (fresh0 : Nat → JStr) (resp : NResp)
    (c0 : NChoice) (rest : List NChoice) (h : resp.choices = c0 :: rest)
    (hm : c0.message = none) : preNormalizeResp fresh0 resp = resp := by
  unfold preNormalizeResp
  rw [h]
  simp only [hm]

lemma preNormalizeResp_eq_notc (fresh0 : Nat → JStr) (resp : NResp)
    (c0 : NChoice) (rest : List NChoice) (msg : NMessage)
    (h : resp.choices = c0 :: rest) (hm : c0.message = some msg)
    (htc : msg.tool_calls = none) : preNormalizeResp fresh0 resp = resp := by
  unfold preNormalizeResp
  rw [h]
  simp only [hm, htc]

lemma preNormalizeResp_eq_tc (fresh0 : Nat → JStr) (resp : NResp)
    (c0 : NChoice) (rest : List NChoice) (msg : NMessage) (ts : List ToolCallV)
    (h : resp.choices = c0 :: rest) (hm : c0.message = some msg)
    (htc : msg.tool_calls = some ts) :
    preNormalizeResp fresh0 resp
      = { resp with
            choices :=
              { c0 with
                  message := some { msg with tool_calls := some (normalizeToolCalls fresh0 ts) } }
                :: rest } := by
  unfold preNormalizeResp
  rw [h]
  simp only [hm, htc]

lemma preNormalizeResp_same (fresh0 : Nat → JStr) (resp : NResp) (idx : Nat)
    (c : NChoice) (h : resp.choices[idx]? = some c) :
    ∃ c', (preNormalizeResp fresh0 resp).choices[idx]? = some c'
      ∧ (choiceToolCalls c').isSome = (choiceToolCalls c).isSome
      ∧ extractChoiceContent c' = extractChoiceContent c
      ∧ c'.finish_reason = c.finish_reason
      ∧ (choiceToolCalls c = none → c' = c) := by
  cases hch : resp.choices with
  | nil =>
    rw [hch] at h
    simp at h
  | cons c0 rest =>
    rw [hch] at h
    cases hm : c0.message with
    | none =>
      refine ⟨c, ?_, rfl, rfl, rfl, fun _ => rfl⟩
      rw [preNormalizeResp_eq_nomsg fresh0 resp c0 rest hch hm, hch]
      exact h
    | some msg =>
      cases htc : msg.tool_calls with
      | none =>
        refine ⟨c, ?_, rfl, rfl, rfl, fun _ => rfl⟩
        rw [preNormalizeResp_eq_notc fresh0 resp c0 rest msg hch hm htc, hch]
        exact h
      | some ts =>
        rw [preNormalizeResp_eq_tc fresh0 resp c0 rest msg ts hch hm htc]
        cases idx with
        | zero =>
          rw [List.getElem?_cons_zero] at h
          injection h with h0
          subst h0
          refine ⟨{ c0 with
              message := some { msg with tool_calls := some (normalizeToolCalls fresh0 ts) } },
            by rw [List.getElem?_cons_zero], ?_, ?_, rfl, ?_⟩
          · simp [choiceToolCalls, hm, htc]
          · unfold extractChoiceContent
            simp only [hm, Option.bind_some]
            rfl
          · intro hnone
            simp only [choiceToolCalls, hm, htc] at hnone
            exact Option.noConfusion hnone
        | succ n =>
          rw [List.getElem?_cons_succ] at h
          refine ⟨c, ?_, rfl, rfl, rfl, fun _ => rfl⟩
          rw [List.getElem?_cons_succ]
          exact h

/-- C10: in the non-streaming completions response, a choice whose upstream
message carries `tool_calls` yields `content: null` and a normalized
`tool_calls` array (non-empty generated or kept id, `type: 'function'`,
non-empty defaulted name, string arguments); a choice without `tool_calls`
yields the extracted content string and no `tool_calls` field. -/
theorem claim_c10_nonstream_tool_calls (m : JStr) (fresh0 : Nat → JStr)
    (fresh : Nat → Nat → JStr) (resp : NResp) (idx : Nat) (c : NChoice)
    (hc : resp.choices[idx]? = some c) :
    ∃ oc, (buildCompletions m fresh0 fresh resp).choices[idx]? = some oc
      ∧ ((choiceToolCalls c).isSome = true →
          oc.message.content = none
          ∧ ∃ l, oc.message.tool_calls = some l ∧ ∀ t ∈ l, normalizedToolCallP t)
      ∧ (choiceToolCalls c = none →
          oc.message.content = some (extractChoiceContent c)
          ∧ oc.message.tool_calls = none) := by
  obtain ⟨c', hc', hts, hext, hfin, huntouched⟩ := preNormalizeResp_same fresh0 resp idx c hc
  have hbc : (buildCompletions m fresh0 fresh resp).choices[idx]? =
      some (buildCompletionChoice fresh idx c') := by
    show ((preNormalizeResp fresh0 resp).choices.enum.map
        fun p => buildCompletionChoice fresh p.1 p.2)[idx]? = _
    rw [getElem?_enum_map, hc']
    rfl
  refine ⟨buildCompletionChoice fresh idx c', hbc, ?_, ?_⟩
  · intro hsome
    rw [← hts] at hsome
    obtain ⟨ts', hts'⟩ := Option.isSome_iff_exists.mp hsome
    constructor
    · unfold buildCompletionChoice
      simp [hts']
    · refine ⟨normalizeToolCalls (fresh idx) ts', ?_, normalizeToolCalls_normalized _ _⟩
      unfold buildCompletionChoice
      simp [hts']
  · intro hnone
    have hceq := huntouched hnone
    subst hceq
    unfold buildCompletionChoice
    simp [hnone]

/-- A concrete upstream response for the C10 witness: choice 0 carries a tool
call with a missing id and structured arguments, choice 1 carries plain text. -/
def c10ExampleResp : NResp :=
  { id := "resp-1".toList
  , created := 7
  , choices :=
      [ { message := some
            { role := some "assistant".toList
            , content := none
            , tool_calls :=
                some [ { id := none
                       , typ := none
                       , function := some { name := some "get_weather".toList
                                          , arguments := .jsonv "SERIALIZED".toList } } ] }
        , delta := none, text := none, content := none, contents := none
        , finish_reason := some "tool_calls".toList, reasoning := none }
      , { message := some
            { role := some "assistant".toList
            , content := some "Hello there!".toList
            , tool_calls := none }
        , delta := none, text := none, content := none, contents := none
        , finish_reason := some "stop".toList, reasoning := none } ]
  , usage := none }

/-- Witness for C10: applying the theorem to choice 0 (with tool calls) of
the concrete response above. -/
theorem claim_c10_nonstream_tool_calls_witness :
    (c10ExampleResp.choices[0]? = some (c10ExampleResp.choices.headD
      { message := none, delta := none, text := none, content := none
      , contents := none, finish_reason := none, reasoning := none }))
    ∧ ∃ oc, (buildCompletions "glm-4.6:latest".toList (fun i => natToJStr i)
          (fun i j => natToJStr (i + j)) c10ExampleResp).choices[0]? = some oc
        ∧ ((choiceToolCalls (c10ExampleResp.choices.headD
              { message := none, delta := none, text := none, content := none
              , contents := none, finish_reason := none, reasoning := none })).isSome = true →
            oc.message.content = none
            ∧ ∃ l, oc.message.tool_calls = some l ∧ ∀ t ∈ l, normalizedToolCallP t)
        ∧ (choiceToolCalls (c10ExampleResp.choices.headD
              { message := none, delta := none, text := none, content := none
              , contents := none, finish_reason := none, reasoning := none }) = none →
            oc.message.content = some (extractChoiceContent (c10ExampleResp.choices.headD
              { message := none, delta := none, text := none, content := none
              , contents := none, finish_reason := none, reasoning := none }))
            ∧ oc.message.tool_calls = none) :=
  ⟨by decide,
    claim_c10_nonstream_tool_calls "glm-4.6:latest".toList (fun i => natToJStr i)
      (fun i j => natToJStr (i + j)) c10ExampleResp 0 _ (by decide)⟩

-- ---------------------------------------------------------------------------
-- C4: inbound message validation and coercion (chat.ts lines 30-92)
-- ---------------------------------------------------------------------------

/-- The `role` slot of an inbound message object: a string, absent
(`undefined`/`null`), or some non-string value. -/
inductive RoleVal where
  | rstr (s : JStr)
  | rnone
  | rother
deriving DecidableEq

/-- One element of a structured `content` array (shallow-copied by the
normalizer; copies are identities in a value model). -/
inductive PartVal where
  | pstr (s : JStr)
  | pobj (tag : JStr)
  | pother
deriving DecidableEq

/-- The `content` slot of an inbound message. -/
inductive ContentVal where
  | cstr (s : JStr)
  | carr (parts : List PartVal)
  | cnone
deriving DecidableEq

/-- An inbound tool call's `function` object (chat.ts lines 58-68). -/
structure InboundFn where
  name : Option JStr
  arguments : ArgsVal
deriving DecidableEq

/-- An inbound tool call object; `typ` is its `type` slot. -/
structure InboundToolCall where
  id : Option JStr
  typ : Option JStr
  function : Option InboundFn
deriving DecidableEq

/-- One element of an inbound `tool_calls` array: an object, or a non-object
value returned unchanged (chat.ts lines 53-55). -/
inductive InToolCallVal where
  | objv (t : InboundToolCall)
  | rawv (tag : JStr)
deriving DecidableEq

/-- An inbound message object. -/
structure InboundMsg where
  role : RoleVal
  content : ContentVal
  tool_calls : Option (List InToolCallVal)
deriving DecidableEq

/-- One element of the inbound `messages` array: `null`/`undefined`, a bare
string, a message object, or some other primitive. -/
inductive MsgVal where
  | nullv
  | strv (s : JStr)
  | objv (m : InboundMsg)
  | otherv
deriving DecidableEq

/-- The per-element guard of chat.ts line 34:
`msg && typeof msg.role === 'string'` (only truthy objects with a string
`role` pass; strings, numbers, `null`, `undefined` all fail). -/
def msgHasStringRole : MsgVal → Bool
  | .objv m =>
    match m.role with
    | .rstr _ => true
    | _ => false
  | _ => false

/-- The inbound tool-call normalization of chat.ts lines 52-71:
non-objects pass through, `type ?? 'function'`, `name === undefined → ''`,
non-string arguments stringified. -/
def normalizeInboundToolCall : InToolCallVal → InToolCallVal
  | .rawv tag => .rawv tag
  | .objv t =>
    let fn :=
      match t.function with
      | some f => f
      | none => { name := none, arguments := .undef }
    .objv
      { id := t.id
      , typ :=
          match t.typ with
          | some x => some x
          | none => some "function".toList
      , function := some
          { name :=
              match fn.name with
              | some n => some n
              | none => some []
          , arguments := .strv (stringifyArgs fn.arguments) } }

/-- Embeds `normalizeInboundMessage` (chat.ts lines 41-88): non-objects are coerced
to a `user` message whose content is the bare string when there is one;
objects get their tool calls and content parts normalized and a non-string
role coerced to `'user'`. -/
def normalizeInboundMessage : MsgVal → InboundMsg
  | .nullv => { role := .rstr "user".toList, content := .cnone, tool_calls := none }
  | .strv s => { role := .rstr "user".toList, content := .cstr s, tool_calls := none }
  | .otherv => { role := .rstr "user".toList, content := .cnone, tool_calls := none }
  | .objv m =>
    { role :=
        match m.role with
        | .rstr s => .rstr s
        | _ => .rstr "user".toList
    , content :=
        match m.content with
        | .carr parts => .carr (parts.map fun p => p)
        | c => c
    , tool_calls :=
        match m.tool_calls with
        | some ts => some (ts.map normalizeInboundToolCall)
        | none => none }

structure ErrResp where
  status : Nat
  error : JStr
deriving DecidableEq

/-- The 400 response of chat.ts lines 34-36. -/
def roleErrorResp : ErrResp :=
  { status := 400, error := "Each message must include a string \"role\"".toList }

/-- The messages stage of `handleChatRequest`: the request-level guard of
line 34 runs BEFORE the per-message normalization of line 92; a failing
element rejects the whole request. -/
def handleMessages (msgs : List MsgVal) : Except ErrResp (List InboundMsg) :=
  if !(msgs.all msgHasStringRole) then .error roleErrorResp
  else .ok (msgs.map normalizeInboundMessage)

/-- A `null`/`undefined` or bare-string element of `messages`. -/
def isNullishOrBareString : MsgVal → Bool
  | .nullv => true
  | .strv _ => true
  | _ => false

/-- Counterexample to C4 as stated: a `messages` array containing `null`
(or a bare string) is rejected with the 400 role error — the request does
not proceed, because the `every` guard of chat.ts line 34 runs before
`normalizeInboundMessage`'s coercion ever could. -/
theorem claim_c4_counterexample :
    handleMessages [MsgVal.nullv] = .error roleErrorResp
    ∧ handleMessages [MsgVal.strv "hi".toList] = .error roleErrorResp := by
  constructor <;> rfl

/-- C4 amended: any inbound request whose `messages` array contains a
`null`/`undefined` or bare-string element fails the request-level
string-role check and the whole request is rejected with 400
(`Each message must include a string "role"`); the `role: 'user'` coercion
of `normalizeInboundMessage` is unreachable for such elements. -/
theorem claim_c4_amended (msgs : List MsgVal) (m : MsgVal) (hm : m ∈ msgs)
    (hbad : isNullishOrBareString m = true) :
    handleMessages msgs = .error roleErrorResp := by
  have hrole : msgHasStringRole m = false := by
    cases m with
    | nullv => rfl
    | strv s => rfl
    | objv mm => simp [isNullishOrBareString] at hbad
    | otherv => simp [isNullishOrBareString] at hbad
  have hall : msgs.all msgHasStringRole = false := by
    cases hA : msgs.all msgHasStringRole with
    | false => rfl
    | true =>
      rw [List.all_eq_true] at hA
      rw [hA m hm] at hrole
      exact Bool.noConfusion hrole
  unfold handleMessages
  rw [hall]
  rfl

/-- Witness for C4 (amended): a concrete request whose sole message is
`null` is rejected with the role error. -/
theorem claim_c4_amended_witness :
    (MsgVal.nullv ∈ [MsgVal.nullv] ∧ isNullishOrBareString MsgVal.nullv = true)
    ∧ handleMessages [MsgVal.nullv] = .error roleErrorResp :=
  ⟨⟨List.mem_singleton.mpr rfl, by decide⟩,
    claim_c4_amended [MsgVal.nullv] MsgVal.nullv (List.mem_singleton.mpr rfl) (by decide)⟩

-- ---------------------------------------------------------------------------
-- C6: finalize writes the terminal exchange record exactly once
-- ---------------------------------------------------------------------------

/-- The `finalized` flag of an `ExchangeContext` (server.ts line 54). -/
structure ExchangeCtx where
  finalized : Bool
deriving DecidableEq

/-- The arguments of one call to the route-level `finalize`
(server.ts lines 179-186). -/
structure FinalizeArgs where
  status : Nat
  headers : JStr
  body : Option (List Nat)
  note : Option JStr
deriving DecidableEq

/-- One consolidated exchange-log record (the `writeExchangeLog` payload). -/
structure LogRecord where
  status : Nat
  headers : JStr
  preview : Option (List Nat)
  note : Option JStr
deriving DecidableEq

/-- The preview computation of server.ts lines 188-192: `null` unless the
body buffer is non-empty, else its first `min(length, LOG_MAX_PREVIEW)`
bytes. -/
def mkPreview (maxPreview : Nat) (body : Option (List Nat)) : Option (List Nat) :=
  match body with
  | some b => if 0 < b.length then some (b.take (min b.length maxPreview)) else none
  | none => none

/-- The guarded route-level `finalize` (server.ts lines 179-202): a no-op
when `ctx.finalized` is already set; otherwise set the flag and append one
consolidated record to the log. -/
def finalizeStep (maxPreview : Nat) (st : ExchangeCtx × List LogRecord)
    (a : FinalizeArgs) : ExchangeCtx × List LogRecord :=
  if st.1.finalized then st
  else (⟨true⟩, st.2 ++ [⟨a.status, a.headers, mkPreview maxPreview a.body, a.note⟩])

/-- All finalize calls fired against one freshly created context, in order. -/
def runFinalize (maxPreview : Nat) (calls : List FinalizeArgs) :
    ExchangeCtx × List LogRecord :=
  calls.foldl (finalizeStep maxPreview) (⟨false⟩, [])

/-- A termination event racing to finalize a proxied exchange
(server.ts lines 594-623 and the transport-error handler at lines 433-464). -/
inductive ProxyEvent where
  | normalEnd
  | sinkError (msg : JStr)
  | clientClosed
  | upstreamAborted
  | upstreamError (msg : JStr)
  | transportError (msg : JStr)
deriving DecidableEq

/-- The note each event's finalize call records. -/
def proxyNote : ProxyEvent → Option JStr
  | .normalEnd => none
  | .sinkError m => some ("clientSink error: ".toList ++ m)
  | .clientClosed => some "client connection closed".toList
  | .upstreamAborted => some "upstream aborted".toList
  | .upstreamError m => some ("proxyRes error: ".toList ++ m)
  | .transportError m => some ("proxy error: ".toList ++ m)

/-- The guarded proxy-side `finalize` (server.ts lines 550-570): the first
event wins, sets the flag, and writes one record. -/
def proxyFinalizeStep (st : ExchangeCtx × List (Option JStr)) (e : ProxyEvent) :
    ExchangeCtx × List (Option JStr) :=
  if st.1.finalized then st
  else (⟨true⟩, st.2 ++ [proxyNote e])

def runProxyFinalize (events : List ProxyEvent) : ExchangeCtx × List (Option JStr) :=
  events.foldl proxyFinalizeStep (⟨false⟩, [])

lemma finalize_absorbed (maxPreview : Nat) (recs : List LogRecord)
    (calls : List FinalizeArgs) :
    calls.foldl (finalizeStep maxPreview) (⟨true⟩, recs) = (⟨true⟩, recs) := by
  induction calls with
  | nil => rfl
  | cons a rest ih => exact ih

lemma proxyFinalize_absorbed (recs : List (Option JStr)) (events : List ProxyEvent) :
    events.foldl proxyFinalizeStep (⟨true⟩, recs) = (⟨true⟩, recs) := by
  induction events with
  | nil => rfl
  | cons e rest ih => exact ih

/-- C6: for every exchange context, no matter which and how many
termination events fire, exactly the first caller of `finalize` writes the
consolidated record — the log holds the first call's record and nothing
else (and no record at all when no call fires); the same holds for the
proxy-side finalize racing over its termination events. -/
theorem claim_c6_finalize_once (maxPreview : Nat) (calls : List FinalizeArgs)
    (events : List ProxyEvent) :
    (runFinalize maxPreview calls).2
      = (calls.head?.map fun a =>
          ({ status := a.status, headers := a.headers
           , preview := mkPreview maxPreview a.body, note := a.note } : LogRecord)).toList
    ∧ (runProxyFinalize events).2 = (events.head?.map proxyNote).toList := by
  constructor
  · cases calls with
    | nil => rfl
    | cons a rest =>
      show (rest.foldl (finalizeStep maxPreview) (⟨true⟩, [_])).2 = _
      rw [finalize_absorbed]
      rfl
  · cases events with
    | nil => rfl
    | cons e rest =>
      show (rest.foldl proxyFinalizeStep (⟨true⟩, [_])).2 = _
      rw [proxyFinalize_absorbed]
      rfl
